import Mathlib

/-!
Shallow embedding of the ESP flasher core: `src/src/services/FlashService.ts`
(device session `connect` / `disconnect` and the `flash` pipeline) and the
step-reconciliation logic embedded in the UI handler (`handleFlash` in the
unnamed page component).

Modelling conventions:
* JavaScript numbers used for the progress percentage are modelled as exact
  rationals (the claims under study concern only monotonicity, bounds and
  endpoint values, which are preserved by the monotone rounding of IEEE
  doubles on these small computations); byte counts are naturals.
* `Math.random`-driven device detection is modelled by passing the random
  draws as explicit parameters.
* The asynchronous environment of `connect` (the result of
  `navigator.serial.requestPort()` and of `port.open(...)`) is passed in as
  an explicit `ConnectEnv` record; exceptions become `Except` values.
* Besides the service's own `port` field, the model tracks the multiset of
  transports currently open (`openPorts`) so that statements about "at most
  one open connection" can be expressed: `port.open` adds to it, and
  `port.close` (inside `disconnect`) removes from it.  The source never
  closes a port anywhere else.
-/

/-- Mirrors the `File` objects handed to the service: only name and size
are observable to the flashing code. -/
structure FileModel where
  name : String
  size : Nat
deriving DecidableEq, Repr

/-- `FlashOptions` from FlashService.ts. -/
structure FlashOptions where
  file : FileModel
  baudRate : Int
  offset : String
  eraseFlash : Bool
deriving DecidableEq, Repr

/-- `FlashProgress` from FlashService.ts: one progress callback payload. -/
structure FlashProgress where
  step : String
  progress : ℚ
  bytesWritten : Nat
  totalBytes : Nat
  message : String
deriving DecidableEq, Repr

/-- `DeviceInfo` from FlashService.ts. -/
structure DeviceInfo where
  chip : String
  port : String
  mac : Option String
deriving DecidableEq, Repr

/-- The session state of a `FlashService` instance: its private `port`
field, together with the list of transports currently open (environment
bookkeeping; ports are identified by numbers). -/
structure SessionState where
  port : Option Nat
  openPorts : List Nat
deriving DecidableEq, Repr

/-- Outcomes of the environment interactions performed by `connect()`:
what `navigator.serial.requestPort()` returns (a port or a thrown error
message) and what `port.open(...)` does (resolves or throws). -/
structure ConnectEnv where
  requested : Except String Nat
  openResult : Except String Unit
  device : DeviceInfo
deriving Repr

/-- The chip list hard-coded in `detectDevice`. -/
def chips : List String := ["ESP32", "ESP32-S2", "ESP32-S3", "ESP32-C3", "ESP8266"]

/-- `detectDevice` (mock device detection).  `Math.floor(Math.random() *
chips.length)` is modelled by the parameter `randChip` reduced mod 5, and
the random MAC suffix by `macSuffix`; `hasUsbProductId` reflects whether
`port.getInfo().usbProductId` is truthy. -/
def detectDevice (randChip : Nat) (hasUsbProductId : Bool) (macSuffix : String) : DeviceInfo :=
  { chip := chips.getD (randChip % 5) "ESP32"
    port := if hasUsbProductId then "USB" else "Serial"
    mac := some ("24:6F:28:" ++ macSuffix) }

/-- `FlashService.connect()`.  Faithful to the source order of effects:
1. `this.port = await navigator.serial.requestPort()` — on a thrown error
   the state is unchanged; on success the `port` field is overwritten
   *before* anything else happens (in particular the previous port, if
   any, is never closed).
2. `await this.port.open({...})` — on a thrown error the function rethrows
   with the `port` field already pointing at the new port; on success the
   new port becomes open.
3. `detectDevice()` (mock; cannot fail). -/
def connect (st : SessionState) (env : ConnectEnv) :
    SessionState × Except String DeviceInfo :=
  match env.requested with
  | .error m => (st, .error ("Failed to connect: " ++ m))
  | .ok q =>
    let st1 : SessionState := { st with port := some q }
    match env.openResult with
    | .error m => (st1, .error ("Failed to connect: " ++ m))
    | .ok _ => ({ st1 with openPorts := st1.openPorts ++ [q] }, .ok env.device)

/-- `FlashService.disconnect()`: closes and clears the stored port if any;
idempotent when not connected. -/
def disconnect (st : SessionState) : SessionState :=
  match st.port with
  | some p => { port := none, openPorts := st.openPorts.erase p }
  | none => st

/-- `formatBytes` helper: `toFixed(1)` of a non-negative rational
(ECMAScript `toFixed` picks the closest 1-decimal value, ties towards the
larger, i.e. half-up for non-negative inputs; the divisions by powers of
two performed by `formatBytes` are exact in IEEE doubles for the sizes
involved, so the rational model is exact). -/
def toFixed1 (q : ℚ) : String :=
  let n : Int := ⌊q * 10 + 1 / 2⌋
  toString (n / 10) ++ "." ++ toString (n % 10)

/-- `FlashService.formatBytes`. -/
def formatBytes (bytes : Nat) : String :=
  if bytes < 1024 then toString bytes ++ " B"
  else if bytes < 1024 * 1024 then toFixed1 ((bytes : ℚ) / 1024) ++ " KB"
  else toFixed1 ((bytes : ℚ) / (1024 * 1024)) ++ " MB"

/-- The `steps` array computed at the top of `flash` (and identically in
`handleFlash`): the phase plan for one run. -/
def phasePlan (eraseFlash : Bool) : List String :=
  ["Connecting", "Syncing"] ++ (if eraseFlash then ["Erasing"] else [])
    ++ ["Writing", "Verifying", "Done"]

/-- The chunk-progress message `Writing: .../...` built in the write loop. -/
def writingMessage (bytesWritten totalBytes : Nat) : String :=
  "Writing: " ++ formatBytes bytesWritten ++ "/" ++ formatBytes totalBytes

/-- One iteration of the chunked write loop in `flash`: the event emitted
for chunk `i` (`0 ≤ i < 50`), with `bytesWritten = min((i+1)*chunkSize,
totalBytes)` and `progress = writeStart + (85 - writeStart)*(i+1)/50`. -/
def chunkEvent (stepName : String) (ws : ℚ) (chunkSize totalBytes : Nat) (i : Nat) :
    FlashProgress :=
  { step := stepName
    progress := ws + ((85 - ws) * ((i : ℚ) + 1)) / 50
    bytesWritten := min ((i + 1) * chunkSize) totalBytes
    totalBytes := totalBytes
    message := writingMessage (min ((i + 1) * chunkSize) totalBytes) totalBytes }

/-- The full sequence of `onProgress` payloads emitted by one successful
pass through the body of `flash` (the `try` block), in emission order.
`steps[currentStep]` indexing is reproduced through `writeIdx` (the index
of `Writing`, which is 3 with erase and 2 without, with `Verifying` and
`Done` following).  `Math.ceil(totalBytes / chunks)` with `chunks = 50`
is `(totalBytes + 49) / 50` in natural arithmetic. -/
def flashEvents (options : FlashOptions) : List FlashProgress :=
  let steps := phasePlan options.eraseFlash
  let totalBytes := options.file.size
  let writeStartProgress : ℚ := if options.eraseFlash then 30 else 20
  let chunkSize := (totalBytes + 49) / 50
  let writeIdx := if options.eraseFlash then 3 else 2
  [{ step := steps.getD 0 "", progress := 0, bytesWritten := 0,
     totalBytes := totalBytes, message := "Establishing connection..." },
   { step := steps.getD 1 "", progress := 10, bytesWritten := 0,
     totalBytes := totalBytes, message := "Syncing with device..." }]
  ++ (if options.eraseFlash then
      [{ step := steps.getD 2 "", progress := 20, bytesWritten := 0,
         totalBytes := totalBytes, message := "Erasing flash memory..." }]
      else [])
  ++ [{ step := steps.getD writeIdx "", progress := writeStartProgress, bytesWritten := 0,
        totalBytes := totalBytes, message := "Writing firmware..." }]
  ++ (List.range 50).map
      (chunkEvent (steps.getD writeIdx "") writeStartProgress chunkSize totalBytes)
  ++ [{ step := steps.getD (writeIdx + 1) "", progress := 90, bytesWritten := totalBytes,
        totalBytes := totalBytes, message := "Verifying flash..." },
      { step := steps.getD (writeIdx + 2) "", progress := 100, bytesWritten := totalBytes,
        totalBytes := totalBytes, message := "Flash completed successfully!" }]

/-- `FlashService.flash(options, onProgress)`: throws `'No device
connected'` when `this.port` is null, before emitting anything; otherwise
runs the simulated pipeline to completion.  The returned list is the
sequence of `onProgress` payloads; note the source performs no validation
of `options` whatsoever. -/
def flashRun (st : SessionState) (options : FlashOptions) :
    Except String (List FlashProgress) :=
  match st.port with
  | none => .error "No device connected"
  | some _ => .ok (flashEvents options)

/-- The events of the Writing phase of a run: those events of the stream
whose `step` is `"Writing"`. -/
def writingEvents (options : FlashOptions) : List FlashProgress :=
  (flashEvents options).filter (fun e => e.step == "Writing")

/-- `FlashStepStatus` from the page component. -/
inductive FlashStepStatus where
  | pending
  | active
  | completed
  | error
deriving DecidableEq, Repr

/-- `FlashStep` from the page component. -/
structure FlashStep where
  name : String
  status : FlashStepStatus
deriving DecidableEq, Repr

/-- The reset performed at the start of `handleFlash`: every phase of the
plan is seeded `pending`. -/
def seedSteps (plan : List String) : List FlashStep :=
  plan.map fun n => { name := n, status := .pending }

/-- JavaScript `Array.prototype.indexOf`: index of the first occurrence,
`-1` when absent. -/
def jsIndexOf (l : List String) (x : String) : Int :=
  match l.findIdx? (fun s => s = x) with
  | some i => (i : Int)
  | none => -1

/-- The step reconciler inside `handleFlash`'s progress callback:
`prev.map((step, index) => ...)` — the step whose name matches the
event's step becomes `active`; otherwise a step at an index strictly
below `steps.indexOf(progress.step)` becomes `completed`; every other
step is returned unchanged. -/
def updateSteps (plan : List String) (prev : List FlashStep) (evStep : String) :
    List FlashStep :=
  prev.mapIdx fun index step =>
    if step.name = evStep then { step with status := .active }
    else if (index : Int) < jsIndexOf plan evStep then { step with status := .completed }
    else step

/-- The failure handler in `handleFlash`: every step whose status is
`active` is demoted to `error`; all other steps are returned unchanged. -/
def markError (prev : List FlashStep) : List FlashStep :=
  prev.map fun step =>
    if step.status = .active then { step with status := .error } else step

/-- The success handler in `handleFlash`: all steps become `completed`. -/
def markAllCompleted (prev : List FlashStep) : List FlashStep :=
  prev.map fun step => { step with status := .completed }

/-- The `flashStats` record assembled by `handleFlash` on success
(`FlashOutcome` of the spec): `fileSize` is taken directly from the
firmware file. -/
structure FlashStats where
  chip : String
  baudRate : Int
  fileSize : Nat
  duration : Nat
deriving DecidableEq, Repr

/-- `setFlashStats({...})` in `handleFlash`. -/
def mkFlashStats (deviceInfo : Option DeviceInfo) (baudRate : Int) (file : FileModel)
    (duration : Nat) : FlashStats :=
  { chip := (deviceInfo.map DeviceInfo.chip).getD "Unknown"
    baudRate := baudRate
    fileSize := file.size
    duration := duration }

/-! ### Helper lemmas -/

theorem getElem?_mapIdx (l : List α) (f : ℕ → α → β) (i : ℕ) :
    (l.mapIdx f)[i]? = l[i]?.map (f i) := by
  simp only [List.mapIdx_eq_enum_map, List.getElem?_map, List.getElem?_enum]
  cases l[i]? <;> rfl

theorem getLast?_append_pair {α : Type} (l : List α) (x y : α) :
    (l ++ [x, y]).getLast? = some y := by
  rw [List.getLast?_append_of_ne_nil l (by simp)]
  rfl

/-! ### Claim theorems -/

/-- C1, counterexample: starting disconnected, a first successful
`connect` (port 1) followed by a second successful `connect` (port 2)
leaves *both* transports open — `openPorts = [1, 2]` — even though the
session was already Connected (`port = some 1`) when the second
`connect()` began.  The prior open transport is not torn down, so two
open transports are silently layered, contradicting the claim. -/
theorem connect_layering_counterexample :
    ((connect ⟨none, []⟩ ⟨.ok 1, .ok (), detectDevice 0 true "AA"⟩).1).port = some 1 ∧
    ((connect ⟨none, []⟩ ⟨.ok 1, .ok (), detectDevice 0 true "AA"⟩).1).openPorts = [1] ∧
    ((connect (connect ⟨none, []⟩ ⟨.ok 1, .ok (), detectDevice 0 true "AA"⟩).1
        ⟨.ok 2, .ok (), detectDevice 0 true "AA"⟩).1).openPorts = [1, 2] :=
  ⟨rfl, rfl, rfl⟩

/-- C1, amended: `connect()` on any session state (Connected or not)
never closes anything: a successful connect simply overwrites the stored
port handle with the newly requested port and opens it *in addition to*
every transport already open, so all previously open transports remain
open. -/
theorem connect_overwrites_without_closing :
    ∀ (st : SessionState) (q : Nat) (dev : DeviceInfo),
      (connect st ⟨.ok q, .ok (), dev⟩).1.port = some q ∧
      (connect st ⟨.ok q, .ok (), dev⟩).1.openPorts = st.openPorts ++ [q] :=
  fun _ _ _ => ⟨rfl, rfl⟩

/-- C2, counterexample: starting from the Disconnected state, a
`connect()` whose port selection succeeds (port 5) but whose
`port.open(...)` throws leaves `port = some 5`: the failed `connect`
*retains* the port handle instead of returning the session to the
state it had before the call (`port = none`). -/
theorem connect_open_failure_retains_port :
    ((connect ⟨none, []⟩ ⟨.ok 5, .error "NetworkError", detectDevice 0 true "AA"⟩).1).port
        = some 5 ∧
    ((connect ⟨none, []⟩ ⟨.ok 5, .error "NetworkError", detectDevice 0 true "AA"⟩).1).port
        ≠ none :=
  ⟨rfl, by decide⟩

/-- C2, amended: when port selection itself fails (user cancel or
permission denied) the session state is left exactly unchanged; but when
the transport `open` fails after a port was selected, the selected port
handle is retained in the session's `port` field (only the list of open
transports is unchanged) — the state is not restored to Disconnected. -/
theorem connect_failure_state :
    ∀ (st : SessionState) (m : String) (o : Except String Unit) (dev : DeviceInfo) (q : Nat),
      (connect st ⟨.error m, o, dev⟩).1 = st ∧
      (connect st ⟨.ok q, .error m, dev⟩).1 = { st with port := some q } :=
  fun _ _ _ _ _ => ⟨rfl, rfl⟩

/-- C3, counterexample: on a connected session, `flash` invoked with
options violating every §3 invariant at once (empty firmware, baud rate
0, offset `"not-hex"`) does *not* fail with `InvalidOptions`: it runs the
whole pipeline successfully and emits its full event stream. -/
theorem flash_no_options_validation :
    (flashRun ⟨some 0, [0]⟩ ⟨⟨"empty.bin", 0⟩, 0, "not-hex", true⟩).isOk = true ∧
    flashRun ⟨some 0, [0]⟩ ⟨⟨"empty.bin", 0⟩, 0, "not-hex", true⟩
      = .ok (flashEvents ⟨⟨"empty.bin", 0⟩, 0, "not-hex", true⟩) :=
  ⟨rfl, rfl⟩

/-- C3, amended: if the session is not Connected, `flash` fails
immediately with `'No device connected'` and emits no ProgressEvent; but
`flash` performs no validation of the options at all, so a connected run
always proceeds through the full pipeline regardless of the options. -/
theorem flash_not_connected_fails_early :
    (∀ (ops : List Nat) (opts : FlashOptions),
        flashRun ⟨none, ops⟩ opts = .error "No device connected") ∧
    (∀ (p : Nat) (ops : List Nat) (opts : FlashOptions),
        flashRun ⟨some p, ops⟩ opts = .ok (flashEvents opts)) :=
  ⟨fun _ _ => rfl, fun _ _ _ => rfl⟩

/-- C10: on a connected session, the emitted event sequence and the run's
outcome depend only on the firmware file's size and the erase flag:
two options records agreeing on those but differing arbitrarily in file
name, baud rate and offset produce identical results. -/
theorem flash_ignores_baud_offset :
    ∀ (p : Nat) (ops : List Nat) (n₁ n₂ : String) (size : Nat) (er : Bool)
      (b₁ b₂ : Int) (o₁ o₂ : String),
      flashRun ⟨some p, ops⟩ ⟨⟨n₁, size⟩, b₁, o₁, er⟩
        = flashRun ⟨some p, ops⟩ ⟨⟨n₂, size⟩, b₂, o₂, er⟩ :=
  fun _ _ _ _ _ _ _ _ _ _ => rfl

/-- C9: when the run fails while one phase is `active` (phases before it
`completed`, phases after it `pending`), the failure handler demotes
exactly the active phase to `error` and leaves every other status exactly
as it was. -/
theorem reconciler_failure_marks_active_error :
    ∀ (pre post : List String) (x : String),
      markError ((pre.map fun n => ⟨n, .completed⟩) ++ ⟨x, .active⟩ ::
          (post.map fun n => ⟨n, .pending⟩)) =
        (pre.map fun n => ⟨n, .completed⟩) ++ ⟨x, .error⟩ ::
          (post.map fun n => ⟨n, .pending⟩) := by
  intro pre post x
  simp [markError, List.map_append, List.map_map, Function.comp_def]

/-- C4: for every options record, the sequence of `step` names over the
emitted events, with adjacent repetitions collapsed, is exactly the phase
plan computed from the erase flag: phases appear in plan order as
contiguous blocks, none skipped, none recurring after a later phase. -/
theorem flash_phase_sequence_follows_plan :
    ∀ (opts : FlashOptions),
      ((flashEvents opts).map FlashProgress.step).destutter (· ≠ ·) = phasePlan opts.eraseFlash := by
  intro opts
  obtain ⟨⟨n, size⟩, b, o, er⟩ := opts
  cases er <;>
    simp [flashEvents, phasePlan, chunkEvent, List.map_append, List.map_map,
      Function.comp_def, List.map_const'] <;>
    decide

/-- C7: every run's event stream ends with exactly one `Done` event, at
percent 100, with `bytesWritten = totalBytes` and the terminal success
message — the last thing emitted before `flash` resolves; in particular
the 4096-byte / 115200-baud / `"0x1000"` / erase-enabled scenario on a
connected session succeeds with its stream ending in
`{Done, 100, 4096, 4096}` and yields stats with `fileSize = 4096`. -/
theorem flash_done_terminal :
    (∀ (opts : FlashOptions),
        (flashEvents opts).getLast? = some
          { step := "Done", progress := 100, bytesWritten := opts.file.size,
            totalBytes := opts.file.size, message := "Flash completed successfully!" } ∧
        ((flashEvents opts).map FlashProgress.step).count "Done" = 1) ∧
    (flashRun ⟨some 0, [0]⟩ ⟨⟨"firmware.bin", 4096⟩, 115200, "0x1000", true⟩
        = .ok (flashEvents ⟨⟨"firmware.bin", 4096⟩, 115200, "0x1000", true⟩) ∧
      (flashEvents ⟨⟨"firmware.bin", 4096⟩, 115200, "0x1000", true⟩).getLast?
        = some ⟨"Done", 100, 4096, 4096, "Flash completed successfully!"⟩ ∧
      (mkFlashStats (some (detectDevice 0 true "AA")) 115200 ⟨"firmware.bin", 4096⟩ 1234).fileSize
        = 4096) := by
  have hgen : ∀ (opts : FlashOptions),
      (flashEvents opts).getLast? = some
        { step := "Done", progress := 100, bytesWritten := opts.file.size,
          totalBytes := opts.file.size, message := "Flash completed successfully!" } ∧
      ((flashEvents opts).map FlashProgress.step).count "Done" = 1 := by
    intro opts
    obtain ⟨⟨n, size⟩, b, o, er⟩ := opts
    constructor
    · cases er <;> simp only [flashEvents] <;> rw [getLast?_append_pair] <;> rfl
    · cases er <;>
        simp [flashEvents, phasePlan, chunkEvent, List.map_append, List.map_map,
          Function.comp_def, List.map_const']
  exact ⟨hgen, rfl, (hgen ⟨⟨"firmware.bin", 4096⟩, 115200, "0x1000", true⟩).1, rfl⟩

theorem getElem?_range_eq (n i : Nat) : (List.range n)[i]? = if i < n then some i else none := by
  by_cases h : i < n
  · simp [List.getElem?_range, h]
  · rw [if_neg h, List.getElem?_eq_none (by simpa using Nat.le_of_not_lt h)]

theorem flashEvents_filter_writing (n : String) (size : Nat) (b : Int) (o : String) (er : Bool) :
    (flashEvents ⟨⟨n, size⟩, b, o, er⟩).filter (fun e => e.step == "Writing")
      = { step := "Writing", progress := if er then (30 : ℚ) else 20, bytesWritten := 0,
          totalBytes := size, message := "Writing firmware..." }
        :: (List.range 50).map
            (chunkEvent "Writing" (if er then (30 : ℚ) else 20) ((size + 49) / 50) size) := by
  cases er <;>
    simp [flashEvents, phasePlan, chunkEvent, List.filter_append, List.filter_map,
      Function.comp_def]

theorem writingEvents_eq (n : String) (size : Nat) (b : Int) (o : String) (er : Bool) :
    writingEvents ⟨⟨n, size⟩, b, o, er⟩
      = { step := "Writing", progress := if er then (30 : ℚ) else 20, bytesWritten := 0,
          totalBytes := size, message := "Writing firmware..." }
        :: (List.range 50).map
            (chunkEvent "Writing" (if er then (30 : ℚ) else 20) ((size + 49) / 50) size) :=
  flashEvents_filter_writing n size b o er

/-- C6: during the Writing phase of every run the event stream consists
of the phase-start event (percent 30 with erase, 20 without, 0 bytes)
followed by exactly one event per chunk for exactly 50 chunks, the `i`-th
chunk reporting `min((i+1)·⌈totalBytes/50⌉, totalBytes)` bytes written —
equal-size chunks with the last truncated — with percent interpolating
linearly from the phase start to 85, `bytesWritten` non-decreasing and
reaching `totalBytes` exactly at the last chunk. -/
theorem flash_writing_chunked :
    ∀ (opts : FlashOptions),
      (writingEvents opts).length = 51 ∧
      (writingEvents opts)[0]?.map FlashProgress.progress
        = some (if opts.eraseFlash then (30 : ℚ) else 20) ∧
      (writingEvents opts)[0]?.map FlashProgress.bytesWritten = some 0 ∧
      (∀ i : Nat, (writingEvents opts)[i + 1]?.map FlashProgress.bytesWritten
          = if i < 50 then some (min ((i + 1) * ((opts.file.size + 49) / 50)) opts.file.size)
            else none) ∧
      (∀ i : Nat, (writingEvents opts)[i + 1]?.map FlashProgress.progress
          = if i < 50 then
              some ((if opts.eraseFlash then (30 : ℚ) else 20)
                + ((85 - (if opts.eraseFlash then (30 : ℚ) else 20)) * ((i : ℚ) + 1)) / 50)
            else none) ∧
      (writingEvents opts)[50]?.map FlashProgress.bytesWritten = some opts.file.size ∧
      (writingEvents opts)[50]?.map FlashProgress.progress = some 85 ∧
      List.Chain' (· ≤ ·) ((writingEvents opts).map FlashProgress.bytesWritten) := by
  intro opts
  obtain ⟨⟨n, size⟩, b, o, er⟩ := opts
  have hW := writingEvents_eq n size b o er
  refine ⟨?_, ?_, ?_, ?_, ?_, ?_, ?_, ?_⟩
  · rw [hW]; simp
  · rw [hW]; rfl
  · rw [hW]; rfl
  · intro i
    rw [hW]
    simp only [List.getElem?_cons_succ, List.getElem?_map, getElem?_range_eq]
    by_cases h : i < 50 <;> simp [h, chunkEvent]
  · intro i
    rw [hW]
    simp only [List.getElem?_cons_succ, List.getElem?_map, getElem?_range_eq]
    by_cases h : i < 50 <;> simp [h, chunkEvent]
  · rw [hW]
    simp only [List.getElem?_cons_succ, List.getElem?_map, getElem?_range_eq]
    norm_num [chunkEvent]
    omega
  · rw [hW]
    simp only [List.getElem?_cons_succ, List.getElem?_map, getElem?_range_eq]
    norm_num [chunkEvent]
  · rw [hW]
    simp only [List.map_cons, List.map_map]
    rw [List.chain'_cons']
    constructor
    · intro y hy
      simp only [List.head?_map] at hy
      exact Nat.zero_le _
    · rw [List.chain'_map]
      rw [show (50 : Nat) = Nat.succ 49 from rfl, List.chain'_range_succ]
      intro m hm
      simp only [Function.comp, chunkEvent]
      gcongr
      omega

theorem flashEvents_eq_true (nm : String) (size : Nat) (b : Int) (o : String) :
    flashEvents ⟨⟨nm, size⟩, b, o, true⟩ =
      { step := "Connecting", progress := 0, bytesWritten := 0, totalBytes := size,
        message := "Establishing connection..." } ::
      { step := "Syncing", progress := 10, bytesWritten := 0, totalBytes := size,
        message := "Syncing with device..." } ::
      { step := "Erasing", progress := 20, bytesWritten := 0, totalBytes := size,
        message := "Erasing flash memory..." } ::
      { step := "Writing", progress := 30, bytesWritten := 0, totalBytes := size,
        message := "Writing firmware..." } ::
      ((List.range 50).map (chunkEvent "Writing" 30 ((size + 49) / 50) size) ++
       [{ step := "Verifying", progress := 90, bytesWritten := size, totalBytes := size,
          message := "Verifying flash..." },
        { step := "Done", progress := 100, bytesWritten := size, totalBytes := size,
          message := "Flash completed successfully!" }]) := by
  simp [flashEvents, phasePlan]

theorem flashEvents_eq_false (nm : String) (size : Nat) (b : Int) (o : String) :
    flashEvents ⟨⟨nm, size⟩, b, o, false⟩ =
      { step := "Connecting", progress := 0, bytesWritten := 0, totalBytes := size,
        message := "Establishing connection..." } ::
      { step := "Syncing", progress := 10, bytesWritten := 0, totalBytes := size,
        message := "Syncing with device..." } ::
      { step := "Writing", progress := 20, bytesWritten := 0, totalBytes := size,
        message := "Writing firmware..." } ::
      ((List.range 50).map (chunkEvent "Writing" 20 ((size + 49) / 50) size) ++
       [{ step := "Verifying", progress := 90, bytesWritten := size, totalBytes := size,
          message := "Verifying flash..." },
        { step := "Done", progress := 100, bytesWritten := size, totalBytes := size,
          message := "Flash completed successfully!" }]) := by
  simp [flashEvents, phasePlan]

theorem chunk_progress_chain (ws : ℚ) (hws : ws ≤ 85) (c t : Nat) :
    List.Chain' (· ≤ ·)
      (((List.range 50).map (chunkEvent "Writing" ws c t)).map FlashProgress.progress) := by
  rw [List.map_map, List.chain'_map,
    show (50 : Nat) = Nat.succ 49 from rfl, List.chain'_range_succ]
  intro m hm
  simp only [Function.comp, chunkEvent]
  have h1 : (0 : ℚ) ≤ 85 - ws := by linarith
  gcongr
  linarith

theorem chunk_bytes_chain (ws : ℚ) (c t : Nat) :
    List.Chain' (· ≤ ·)
      (((List.range 50).map (chunkEvent "Writing" ws c t)).map FlashProgress.bytesWritten) := by
  rw [List.map_map, List.chain'_map,
    show (50 : Nat) = Nat.succ 49 from rfl, List.chain'_range_succ]
  intro m hm
  simp only [Function.comp, chunkEvent]
  gcongr
  omega

theorem range50_head : (List.range 50).head? = some 0 := by decide

theorem range50_getLast : (List.range 50).getLast? = some 49 := by decide

theorem suffix_progress_chain (ws : ℚ) (h85 : ws ≤ 85) (c t : Nat) :
    List.Chain' (· ≤ ·)
      ((((List.range 50).map (chunkEvent "Writing" ws c t)).map FlashProgress.progress)
        ++ [90, 100]) := by
  rw [List.chain'_append]
  refine ⟨chunk_progress_chain ws h85 c t, by norm_num, ?_⟩
  intro x hx y hy
  rw [List.getLast?_map, List.getLast?_map, range50_getLast] at hx
  simp only [Option.map_some', Option.mem_def, Option.some.injEq] at hx
  simp only [List.head?_cons, Option.mem_def, Option.some.injEq] at hy
  subst hx
  subst hy
  simp only [chunkEvent]
  have h1 : (0 : ℚ) ≤ 85 - ws := by linarith
  have : ((49 : ℕ) : ℚ) + 1 = 50 := by norm_num
  rw [this]
  rw [mul_div_assoc]
  rw [div_self (by norm_num : (50 : ℚ) ≠ 0)]
  linarith

theorem suffix_bytes_chain (ws : ℚ) (c t : Nat) :
    List.Chain' (· ≤ ·)
      ((((List.range 50).map (chunkEvent "Writing" ws c t)).map FlashProgress.bytesWritten)
        ++ [t, t]) := by
  rw [List.chain'_append]
  refine ⟨chunk_bytes_chain ws c t, by norm_num, ?_⟩
  intro x hx y hy
  rw [List.getLast?_map, List.getLast?_map, range50_getLast] at hx
  simp only [Option.map_some', Option.mem_def, Option.some.injEq] at hx
  simp only [List.head?_cons, Option.mem_def, Option.some.injEq] at hy
  subst hx
  subst hy
  simp only [chunkEvent]
  exact min_le_right _ _

set_option maxHeartbeats 1000000 in
/-- C5: across the events of a single run, `percent` is non-decreasing
and stays within [0, 100], `bytesWritten` is non-decreasing and stays
within [0, totalBytes], and `totalBytes` is constant, equal to the
firmware file's size. -/
theorem flash_progress_monotone_bounded :
    ∀ (opts : FlashOptions),
      List.Chain' (· ≤ ·) ((flashEvents opts).map FlashProgress.progress) ∧
      (∀ e ∈ flashEvents opts, 0 ≤ e.progress ∧ e.progress ≤ 100) ∧
      List.Chain' (· ≤ ·) ((flashEvents opts).map FlashProgress.bytesWritten) ∧
      (∀ e ∈ flashEvents opts, e.bytesWritten ≤ e.totalBytes) ∧
      (∀ e ∈ flashEvents opts, e.totalBytes = opts.file.size) := by
  intro opts
  obtain ⟨⟨nm, size⟩, b, o, er⟩ := opts
  cases er
  · rw [flashEvents_eq_false]
    refine ⟨?_, ?_, ?_, ?_, ?_⟩
    · simp only [List.map_cons, List.map_append]
      refine List.chain'_cons'.2 ⟨by norm_num, ?_⟩
      refine List.chain'_cons'.2 ⟨by norm_num, ?_⟩
      refine List.chain'_cons'.2 ⟨?_, suffix_progress_chain 20 (by norm_num) _ _⟩
      intro y hy
      rw [List.head?_append, List.head?_map, List.head?_map, range50_head] at hy
      simp only [Option.map_some', Option.or_some, Option.mem_def, Option.some.injEq] at hy
      subst hy
      simp only [chunkEvent]
      norm_num
    · simp only [List.forall_mem_cons, List.forall_mem_append, List.forall_mem_map,
        List.mem_range, List.forall_mem_cons, List.forall_mem_singleton]
      refine ⟨by norm_num, by norm_num, by norm_num, ?_, by norm_num, by norm_num⟩
      intro j hj
      have h0 : (0 : ℚ) ≤ (j : ℚ) := by positivity
      have h1 : (j : ℚ) ≤ 49 := by exact_mod_cast Nat.le_of_lt_succ hj
      simp only [chunkEvent]
      constructor <;> linarith
    · simp only [List.map_cons, List.map_append]
      refine List.chain'_cons'.2 ⟨by norm_num, ?_⟩
      refine List.chain'_cons'.2 ⟨by norm_num, ?_⟩
      refine List.chain'_cons'.2 ⟨?_, suffix_bytes_chain 20 _ _⟩
      intro y hy
      exact Nat.zero_le _
    · simp only [List.forall_mem_cons, List.forall_mem_append, List.forall_mem_map,
        List.mem_range, List.forall_mem_singleton]
      refine ⟨by norm_num, by norm_num, by norm_num, ?_, by norm_num, by norm_num⟩
      intro j hj
      simp only [chunkEvent]
      exact min_le_right _ _
    · simp [List.forall_mem_cons, List.forall_mem_append, List.forall_mem_map,
        List.mem_range, List.forall_mem_singleton, chunkEvent]
      rintro a (⟨i, hi, rfl⟩ | rfl | rfl) <;> rfl
  · rw [flashEvents_eq_true]
    refine ⟨?_, ?_, ?_, ?_, ?_⟩
    · simp only [List.map_cons, List.map_append]
      refine List.chain'_cons'.2 ⟨by norm_num, ?_⟩
      refine List.chain'_cons'.2 ⟨by norm_num, ?_⟩
      refine List.chain'_cons'.2 ⟨by norm_num, ?_⟩
      refine List.chain'_cons'.2 ⟨?_, suffix_progress_chain 30 (by norm_num) _ _⟩
      intro y hy
      rw [List.head?_append, List.head?_map, List.head?_map, range50_head] at hy
      simp only [Option.map_some', Option.or_some, Option.mem_def, Option.some.injEq] at hy
      subst hy
      simp only [chunkEvent]
      norm_num
    · simp only [List.forall_mem_cons, List.forall_mem_append, List.forall_mem_map,
        List.mem_range, List.forall_mem_singleton]
      refine ⟨by norm_num, by norm_num, by norm_num, by norm_num, ?_, by norm_num, by norm_num⟩
      intro j hj
      have h0 : (0 : ℚ) ≤ (j : ℚ) := by positivity
      have h1 : (j : ℚ) ≤ 49 := by exact_mod_cast Nat.le_of_lt_succ hj
      simp only [chunkEvent]
      constructor <;> linarith
    · simp only [List.map_cons, List.map_append]
      refine List.chain'_cons'.2 ⟨by norm_num, ?_⟩
      refine List.chain'_cons'.2 ⟨by norm_num, ?_⟩
      refine List.chain'_cons'.2 ⟨by norm_num, ?_⟩
      refine List.chain'_cons'.2 ⟨?_, suffix_bytes_chain 30 _ _⟩
      intro y hy
      exact Nat.zero_le _
    · simp only [List.forall_mem_cons, List.forall_mem_append, List.forall_mem_map,
        List.mem_range, List.forall_mem_singleton]
      refine ⟨by norm_num, by norm_num, by norm_num, by norm_num, ?_, by norm_num, by norm_num⟩
      intro j hj
      simp only [chunkEvent]
      exact min_le_right _ _
    · simp [List.forall_mem_cons, List.forall_mem_append, List.forall_mem_map,
        List.mem_range, List.forall_mem_singleton, chunkEvent]
      rintro a (⟨i, hi, rfl⟩ | rfl | rfl) <;> rfl

/-- Witness for C5 at a concrete run: the options with a 7-byte firmware
and erase enabled; the first event is in the stream and the theorem gives
its percent bounds. -/
theorem flash_progress_monotone_bounded_witness :
    (0 : ℚ) ≤ FlashProgress.progress
        { step := "Connecting", progress := 0, bytesWritten := 0, totalBytes := 7,
          message := "Establishing connection..." } ∧
      FlashProgress.progress
        { step := "Connecting", progress := 0, bytesWritten := 0, totalBytes := 7,
          message := "Establishing connection..." } ≤ 100 :=
  (flash_progress_monotone_bounded ⟨⟨"a.bin", 7⟩, 115200, "0x1000", true⟩).2.1 _
    (by rw [flashEvents_eq_true]; exact List.mem_cons_self _ _)

/-- C8: the step reconciler, seeded from the phase plan with every phase
pending, reacts to each event as follows — for an event whose phase name
sits at ordinal `p` of the (duplicate-free) plan, the step at `p` becomes
`active`, every step at an ordinal `< p` becomes `completed`, and every
step at an ordinal `> p` is left untouched; an event whose phase name is
not in the plan changes nothing at all. -/
theorem reconciler_update_spec :
    ∀ (plan : List String) (prev : List FlashStep) (ev : String) (p : Nat),
      prev.map FlashStep.name = plan →
      plan.Nodup →
      (((seedSteps plan).map FlashStep.name = plan ∧
          ∀ s ∈ seedSteps plan, s.status = FlashStepStatus.pending) ∧
        (ev ∉ plan → updateSteps plan prev ev = prev) ∧
        (plan.findIdx? (fun s => s = ev) = some p →
          ∀ i : Nat, (updateSteps plan prev ev)[i]?
            = (prev[i]?).map (fun st =>
                if i = p then { st with status := FlashStepStatus.active }
                else if i < p then { st with status := FlashStepStatus.completed }
                else st))) := by
  intro plan prev ev p hname hnd
  refine ⟨⟨?_, ?_⟩, ?_, ?_⟩
  · simp [seedSteps, List.map_map, Function.comp_def]
  · intro s hs
    rcases List.mem_map.1 hs with ⟨nm, _, rfl⟩
    rfl
  · intro hev
    have hfi : plan.findIdx? (fun s => s = ev) = none := by
      rw [List.findIdx?_eq_none_iff]
      intro x hx
      simp only [decide_eq_false_iff_not]
      intro h
      exact hev (h ▸ hx)
    refine List.ext_getElem? fun i => ?_
    rw [updateSteps, getElem?_mapIdx]
    cases hpi : prev[i]? with
    | none => rfl
    | some st =>
      simp only [Option.map_some']
      have hstmem : st ∈ prev := by
        rcases List.getElem?_eq_some.1 hpi with ⟨hl, he⟩
        exact he ▸ prev.getElem_mem hl
      have hne : st.name ≠ ev := fun h =>
        hev (h ▸ (hname ▸ List.mem_map_of_mem FlashStep.name hstmem))
      have hjs : jsIndexOf plan ev = -1 := by simp [jsIndexOf, hfi]
      rw [if_neg hne, hjs, if_neg (by omega)]
  · intro hp i
    rw [updateSteps, getElem?_mapIdx]
    cases hpi : prev[i]? with
    | none => rfl
    | some st =>
      simp only [Option.map_some', Option.some.injEq]
      rcases List.findIdx?_eq_some_iff_findIdx_eq.1 hp with ⟨hplen, hfidx⟩
      rcases (List.findIdx_eq hplen).1 hfidx with ⟨hpev, hmin⟩
      have hpev : plan[p] = ev := of_decide_eq_true hpev
      have hplani : plan[i]? = some st.name := by
        rw [← hname, List.getElem?_map, hpi]
        rfl
      rcases List.getElem?_eq_some.1 hplani with ⟨hilen, hivalue⟩
      have hjs : jsIndexOf plan ev = (p : Int) := by rw [jsIndexOf, hp]
      rcases lt_trichotomy i p with hip | hip | hip
      · have hnev : st.name ≠ ev := by
          intro h
          have hj := hmin i hip
          rw [hivalue, h] at hj
          simp at hj
        rw [if_neg hnev, hjs, if_pos (by exact_mod_cast hip), if_neg (by omega), if_pos hip]
      · subst hip
        have : st.name = ev := by rw [← hivalue, hpev]
        rw [if_pos this, if_pos rfl]
      · have hnev : st.name ≠ ev := by
          intro h
          have : plan[i] = plan[p] := by rw [hivalue, h, hpev]
          have := (hnd.getElem_inj_iff).1 this
          omega
        rw [if_neg hnev, hjs, if_neg (by exact_mod_cast not_lt.2 (le_of_lt hip)),
          if_neg (by omega), if_neg (by omega)]

/-- Witness for C8 on the erase-enabled plan: a `"Writing"` event marks
`"Syncing"` (ordinal 1 < 3) completed, and an unknown `"Diagnostics"`
event is a no-op. -/
theorem reconciler_update_spec_witness :
    (updateSteps (phasePlan true) (seedSteps (phasePlan true)) "Writing")[1]?
        = some { name := "Syncing", status := FlashStepStatus.completed } ∧
      updateSteps (phasePlan true) (seedSteps (phasePlan true)) "Diagnostics"
        = seedSteps (phasePlan true) :=
  ⟨((reconciler_update_spec (phasePlan true) (seedSteps (phasePlan true)) "Writing" 3
      (by decide) (by decide)).2.2 (by decide) 1).trans (by decide),
   (reconciler_update_spec (phasePlan true) (seedSteps (phasePlan true)) "Diagnostics" 0
      (by decide) (by decide)).2.1 (by decide)⟩
